/-
Verification of the graph-extraction, upsert, size-reduction and
concurrency-coordination core of the rag-bot-demo repository.

The Python sources embedded here:
  * src/app/graph_store.py   — JSON extraction/salvage pipeline and the
    Neo4j upsert adapter (`_extract_json_block`,
    `_try_parse_json_with_trimming`, `_iter_json_objects`,
    `_salvage_nodes_edges_from_partial`, `_upsert_graph`,
    `build_graph_for_session`);
  * src/app/lightrag_graph.py — the visualization size reducer
    (degree-based node selection) and the build-lock / background-task
    coordinator (`build_lightrag_graph_for_session`,
    `start_graph_build_async`, `get_graph_build_status`).

Machine integers do not appear; all indices are Nat.  Python's `json.loads`
is modelled by an executable recursive-descent parser over `List Char`
(`jsonLoads`), faithful to the `json` module's grammar: values are objects,
arrays, strings (with the standard escapes), numbers (kept as their source
lexeme, so no floating point semantics are needed), `true`/`false`/`null`
and the CPython extensions `NaN`/`Infinity`/`-Infinity`; trailing
non-whitespace is an error ("Extra data").  Duplicate object keys follow
Python `dict` semantics (last occurrence wins), which is why `jsonGet`
searches from the end.
-/
import Mathlib

namespace RagBot

/-- JSON values as produced by `json.loads`.  Numbers keep their source
lexeme (`"123"`, `"1.5e3"`, …): the claims never compare numerically, and
this avoids floating-point semantics.  Objects are ordered key/value lists;
lookup takes the *last* binding, matching Python dict construction. -/
inductive Json where
  | null : Json
  | bool (b : Bool) : Json
  | num (lex : String) : Json
  | str (s : String) : Json
  | arr (elems : List Json) : Json
  | obj (kvs : List (String × Json)) : Json
deriving Repr

mutual

/-- Structural equality of JSON values: the model of Python `==` on the
values `json.loads` returns (used by the salvage stage's seen-id set). -/
def beqJson : Json → Json → Bool
  | .null, .null => true
  | .bool a, .bool b => a == b
  | .num a, .num b => a == b
  | .str a, .str b => a == b
  | .arr xs, .arr ys => beqJsonList xs ys
  | .obj xs, .obj ys => beqJsonKvs xs ys
  | _, _ => false

def beqJsonList : List Json → List Json → Bool
  | [], [] => true
  | x :: xs, y :: ys => beqJson x y && beqJsonList xs ys
  | _, _ => false

def beqJsonKvs : List (String × Json) → List (String × Json) → Bool
  | [], [] => true
  | (k1, v1) :: xs, (k2, v2) :: ys =>
      k1 == k2 && beqJson v1 v2 && beqJsonKvs xs ys
  | _, _ => false

end

namespace Json

/-- `d.get(k)` on a Python dict built by `json.loads`: duplicate keys were
overwritten in insertion order, so the last binding wins. -/
def getKey? (kvs : List (String × Json)) (k : String) : Option Json :=
  match kvs with
  | [] => none
  | (k', v) :: rest =>
      match getKey? rest k with
      | some r => some r
      | none => if k' = k then some v else none

/-- `k in d` for a parsed object. -/
def hasKey (kvs : List (String × Json)) (k : String) : Bool :=
  kvs.any (fun p => p.1 = k)

/-- `d.get(k, dflt)`. -/
def getKeyD (kvs : List (String × Json)) (k : String) (dflt : Json) : Json :=
  (getKey? kvs k).getD dflt

end Json

/-! ### The `json.loads` model -/

/-- JSON whitespace characters (the `json` module's `_w` regex: space, tab,
newline, carriage return). -/
def isJsonWs (c : Char) : Bool :=
  c = ' ' || c = '\t' || c = '\n' || c = '\r'

def skipWs (cs : List Char) : List Char :=
  cs.dropWhile isJsonWs

def isDigitCh (c : Char) : Bool :=
  '0' ≤ c && c ≤ '9'

def isHexCh (c : Char) : Bool :=
  isDigitCh c || ('a' ≤ c && c ≤ 'f') || ('A' ≤ c && c ≤ 'F')

def hexVal (c : Char) : Nat :=
  if isDigitCh c then c.toNat - '0'.toNat
  else if 'a' ≤ c && c ≤ 'f' then c.toNat - 'a'.toNat + 10
  else if 'A' ≤ c && c ≤ 'F' then c.toNat - 'A'.toNat + 10
  else 0

/-- Parse the body of a JSON string literal (after the opening quote),
returning the decoded characters and the remaining input after the closing
quote.  Strict mode: unescaped control characters below U+0020 are
rejected, escapes are the standard eight plus `\uXXXX`. -/
def pString (fuel : Nat) (cs : List Char) (acc : List Char) :
    Except String (String × List Char) :=
  match fuel, cs with
  | 0, _ => .error "string: out of fuel"
  | _, [] => .error "Unterminated string"
  | fuel + 1, c :: rest =>
      if c = '"' then
        .ok (String.mk acc.reverse, rest)
      else if c = '\\' then
        match rest with
        | [] => .error "Unterminated string escape"
        | e :: rest' =>
            if e = '"' then pString fuel rest' ('"' :: acc)
            else if e = '\\' then pString fuel rest' ('\\' :: acc)
            else if e = '/' then pString fuel rest' ('/' :: acc)
            else if e = 'b' then pString fuel rest' ('\x08' :: acc)
            else if e = 'f' then pString fuel rest' ('\x0c' :: acc)
            else if e = 'n' then pString fuel rest' ('\n' :: acc)
            else if e = 'r' then pString fuel rest' ('\r' :: acc)
            else if e = 't' then pString fuel rest' ('\t' :: acc)
            else if e = 'u' then
              match rest' with
              | h1 :: h2 :: h3 :: h4 :: rest'' =>
                  if isHexCh h1 && isHexCh h2 && isHexCh h3 && isHexCh h4 then
                    let n := ((hexVal h1 * 16 + hexVal h2) * 16 + hexVal h3) * 16
                      + hexVal h4
                    let ch := if n.isValidChar then Char.ofNat n else '?'
                    pString fuel rest'' (ch :: acc)
                  else .error "Invalid \\uXXXX escape"
              | _ => .error "Invalid \\uXXXX escape"
            else .error "Invalid \\escape"
      else if c.toNat < 0x20 then
        .error "Invalid control character"
      else
        pString fuel rest (c :: acc)

/-- Parse a JSON number per the `json` module's `NUMBER_RE`
(`(-?(?:0|[1-9]\d*))(\.\d+)?([eE][-+]?\d+)?`), returning the matched
lexeme.  Maximal munch; a failed match is an error (the caller checks the
first character, so this is reached only on digits or `-`). -/
def pNumber (cs : List Char) : Except String (String × List Char) :=
  let (sign, rest0) :=
    match cs with
    | '-' :: t => ([('-' : Char)], t)
    | _ => ([], cs)
  match rest0 with
  | [] => .error "Expecting value"
  | d :: t =>
      if d = '0' then
        let intPart := sign ++ ['0']
        pNumberFrac intPart t
      else if isDigitCh d then
        let digits := t.takeWhile isDigitCh
        let t' := t.dropWhile isDigitCh
        pNumberFrac (sign ++ d :: digits) t'
      else .error "Expecting value"
where
  pNumberFrac (intPart : List Char) (cs : List Char) :
      Except String (String × List Char) :=
    let (fracPart, rest1) :=
      match cs with
      | '.' :: t =>
          let digits := t.takeWhile isDigitCh
          if digits = [] then (([] : List Char), cs)
          else ('.' :: digits, t.dropWhile isDigitCh)
      | _ => ([], cs)
    let (expPart, rest2) :=
      match rest1 with
      | e :: t =>
          if e = 'e' || e = 'E' then
            let (esign, t1) :=
              match t with
              | s :: t' => if s = '+' || s = '-' then ([s], t') else ([], t)
              | [] => ([], t)
            let digits := t1.takeWhile isDigitCh
            if digits = [] then (([] : List Char), rest1)
            else (e :: esign ++ digits, t1.dropWhile isDigitCh)
          else ([], rest1)
      | [] => ([], rest1)
    .ok (String.mk (intPart ++ fracPart ++ expPart), rest2)

mutual

/-- `scan_once`: parse one JSON value starting at `cs` (leading whitespace
already consumed by the caller). -/
def pValue (fuel : Nat) (cs : List Char) :
    Except String (Json × List Char) :=
  match fuel with
  | 0 => .error "value: out of fuel"
  | fuel + 1 =>
      match cs with
      | [] => .error "Expecting value"
      | c :: rest =>
          if c = '"' then
            match pString (rest.length + 1) rest [] with
            | .ok (s, rest') => .ok (.str s, rest')
            | .error e => .error e
          else if c = '{' then
            pObjAfterBrace fuel (skipWs rest)
          else if c = '[' then
            pArrAfterBracket fuel (skipWs rest)
          else if ['t', 'r', 'u', 'e'].isPrefixOf cs then
            .ok (.bool true, cs.drop 4)
          else if ['f', 'a', 'l', 's', 'e'].isPrefixOf cs then
            .ok (.bool false, cs.drop 5)
          else if ['n', 'u', 'l', 'l'].isPrefixOf cs then
            .ok (.null, cs.drop 4)
          else if c = '-' || isDigitCh c then
            -- `-Infinity` is tried by the scanner when the number regex
            -- fails to match; NUMBER_RE always matches `-<digit>…`.
            if ['-', 'I', 'n', 'f', 'i', 'n', 'i', 't', 'y'].isPrefixOf cs then
              .ok (.num "-Infinity", cs.drop 9)
            else
              match pNumber cs with
              | .ok (lex, rest') => .ok (.num lex, rest')
              | .error e => .error e
          else if ['N', 'a', 'N'].isPrefixOf cs then
            .ok (.num "NaN", cs.drop 3)
          else if ['I', 'n', 'f', 'i', 'n', 'i', 't', 'y'].isPrefixOf cs then
            .ok (.num "Infinity", cs.drop 8)
          else .error "Expecting value"

/-- Object members after `{` and optional whitespace. -/
def pObjAfterBrace (fuel : Nat) (cs : List Char) :
    Except String (Json × List Char) :=
  match fuel with
  | 0 => .error "object: out of fuel"
  | fuel + 1 =>
      match cs with
      | '}' :: rest => .ok (.obj [], rest)
      | _ => pObjMembers fuel cs []

/-- A (non-empty) sequence of `"key": value` pairs; `cs` points at the
first character of a key's opening quote. -/
def pObjMembers (fuel : Nat) (cs : List Char)
    (acc : List (String × Json)) : Except String (Json × List Char) :=
  match fuel with
  | 0 => .error "object: out of fuel"
  | fuel + 1 =>
      match cs with
      | '"' :: rest =>
          match pString (rest.length + 1) rest [] with
          | .error e => .error e
          | .ok (key, afterKey) =>
              match skipWs afterKey with
              | ':' :: afterColon =>
                  match pValue fuel (skipWs afterColon) with
                  | .error e => .error e
                  | .ok (v, afterVal) =>
                      match skipWs afterVal with
                      | ',' :: afterComma =>
                          pObjMembers fuel (skipWs afterComma)
                            ((key, v) :: acc)
                      | '}' :: rest' =>
                          .ok (.obj (((key, v) :: acc).reverse), rest')
                      | _ => .error "Expecting ',' delimiter"
              | _ => .error "Expecting ':' delimiter"
      | _ => .error "Expecting property name enclosed in double quotes"

/-- Array elements after `[` and optional whitespace. -/
def pArrAfterBracket (fuel : Nat) (cs : List Char) :
    Except String (Json × List Char) :=
  match fuel with
  | 0 => .error "array: out of fuel"
  | fuel + 1 =>
      match cs with
      | ']' :: rest => .ok (.arr [], rest)
      | _ => pArrElems fuel cs []

def pArrElems (fuel : Nat) (cs : List Char) (acc : List Json) :
    Except String (Json × List Char) :=
  match fuel with
  | 0 => .error "array: out of fuel"
  | fuel + 1 =>
      match pValue fuel cs with
      | .error e => .error e
      | .ok (v, afterVal) =>
          match skipWs afterVal with
          | ',' :: afterComma => pArrElems fuel (skipWs afterComma) (v :: acc)
          | ']' :: rest' => .ok (.arr ((v :: acc).reverse), rest')
          | _ => .error "Expecting ',' delimiter"

end

/-- `json.loads` on a character list: skip leading whitespace, parse one
value, require only whitespace afterwards ("Extra data" otherwise). -/
def jsonLoadsL (cs : List Char) : Except String Json :=
  match pValue (2 * cs.length + 8) (skipWs cs) with
  | .error e => .error e
  | .ok (v, rest) =>
      match skipWs rest with
      | [] => .ok v
      | _ => .error "Extra data"

/-- `json.loads` on a string. -/
def jsonLoads (s : String) : Except String Json :=
  jsonLoadsL s.toList

/-! ### Python string helpers used by `graph_store.py` -/

/-- Python `str.strip()` / `rstrip()` whitespace class (ASCII part: space,
`\t`, `\n`, `\r`, `\x0b`, `\x0c`). -/
def isPySpace (c : Char) : Bool :=
  c = ' ' || c = '\t' || c = '\n' || c = '\r' || c = '\x0b' || c = '\x0c'

/-- Python `s.strip()`. -/
def pyStrip (cs : List Char) : List Char :=
  ((cs.dropWhile isPySpace).reverse.dropWhile isPySpace).reverse

/-- Python `s.rstrip()`. -/
def pyRstrip (cs : List Char) : List Char :=
  (cs.reverse.dropWhile isPySpace).reverse

/-- Python `s.find(sub)`: index of the first occurrence of `sub`,
`none` for `-1`. -/
def pyFind (cs pat : List Char) : Option Nat :=
  ((List.range (cs.length + 1)).filter
    (fun i => pat.isPrefixOf (cs.drop i))).head?

/-- Python `s.rfind(sub)`: index of the last occurrence of `sub`,
`none` for `-1`. -/
def pyRfind (cs pat : List Char) : Option Nat :=
  ((List.range (cs.length + 1)).filter
    (fun i => pat.isPrefixOf (cs.drop i))).getLast?

/-! ### `_extract_json_block` (graph_store.py lines 125–153) -/

/-- The first phase of `_extract_json_block`: `raw.strip()`, then removal
of a leading ```` ``` ```` fence (dropping through the first newline and
cutting at the last ```` ``` ````, then stripping again). -/
def fenceStripped (raw : List Char) : List Char :=
  let text := pyStrip raw
  if ['`', '`', '`'].isPrefixOf text then
    let text1 :=
      match pyFind text ['\n'] with
      | some i => text.drop (i + 1)
      | none => text
    let text2 :=
      match pyRfind text1 ['`', '`', '`'] with
      | some j => text1.take j
      | none => text1
    pyStrip text2
  else text

/-- `_extract_json_block`: after fence stripping, take the substring from
the first `{` to the last `}`; if no such pair exists (or they are
inverted), return the original raw text unchanged. -/
def extractJsonBlockL (raw : List Char) : List Char :=
  let text := fenceStripped raw
  match pyFind text ['{'], pyRfind text ['}'] with
  | some start, some stop =>
      if stop ≤ start then raw else (text.drop start).take (stop + 1 - start)
  | _, _ => raw

def extractJsonBlock (raw : String) : String :=
  String.mk (extractJsonBlockL raw.toList)

/-! ### `_try_parse_json_with_trimming` (graph_store.py lines 156–193) -/

/-- Python `max(s.rfind("}"), s.rfind("]"))` as an `Option`. -/
def lastBraceIdx (cs : List Char) : Option Nat :=
  match pyRfind cs ['}'], pyRfind cs [']'] with
  | some i, some j => some (max i j)
  | some i, none => some i
  | none, some j => some j
  | none, none => none

/-- The `for cut in range(1, 200)` trimming loop.  `iters` counts the
remaining iterations (called with 199, so `cut = 200 - iters`); `lastErr`
is the `last_error` variable.  Exhausting the loop, or `break`-ing when no
`}`/`]` remains, re-raises `last_error` when set and a generic
`JSONDecodeError` otherwise. -/
def trimSteps (raw : List Char) : Nat → Option String → Except String Json
  | 0, lastErr =>
      .error (lastErr.getD "Unable to parse JSON after trimming")
  | iters + 1, lastErr =>
      let cut := 200 - (iters + 1)
      let trimmed := pyRstrip (raw.take (raw.length - cut))
      match lastBraceIdx trimmed with
      | none => .error (lastErr.getD "Unable to parse JSON after trimming")
      | some lastBrace =>
          let candidate := trimmed.take (lastBrace + 1)
          match jsonLoadsL candidate with
          | .ok data => .ok data
          | .error e => trimSteps raw iters (some e)

/-- `_try_parse_json_with_trimming`: parse as-is, else trim up to 199
trailing characters, cutting each candidate back to the last `}`/`]`. -/
def tryParseJsonWithTrimmingL (raw : List Char) : Except String Json :=
  match jsonLoadsL raw with
  | .ok data => .ok data
  | .error _ => trimSteps raw 199 none

def tryParseJsonWithTrimming (raw : String) : Except String Json :=
  tryParseJsonWithTrimmingL raw.toList

/-! ### `_iter_json_objects` (graph_store.py lines 196–214) -/

/-- One step of the brace-depth counter of `_iter_json_objects` (`{` opens,
`}` closes only when depth > 0). -/
def braceStep (d : Nat) (c : Char) : Nat :=
  if c = '{' then d + 1
  else if c = '}' then d - 1
  else d

/-- Running brace depth after consuming `cs`, starting from `d` (Nat
subtraction gives the code's `if depth > 0` floor for free). -/
def braceDepth (d : Nat) (cs : List Char) : Nat :=
  cs.foldl braceStep d

/-- The loop body of `_iter_json_objects`: `d` is the current depth, `cur`
the characters of the currently open top-level span (reversed; the slice
`text[start : i + 1]` accumulates every character once a span opened at
depth 0).  A span is yielded when depth returns to 0; an unclosed trailing
span is discarded. -/
def iterGo : List Char → Nat → List Char → List (List Char)
  | [], _, _ => []
  | c :: rest, d, cur =>
      if c = '{' then
        if d = 0 then iterGo rest 1 ['{']
        else iterGo rest (d + 1) (c :: cur)
      else if c = '}' then
        if d = 0 then iterGo rest 0 cur
        else if d = 1 then ((c :: cur).reverse) :: iterGo rest 0 []
        else iterGo rest (d - 1) (c :: cur)
      else
        iterGo rest d (if d = 0 then cur else c :: cur)

/-- `_iter_json_objects`. -/
def iterJsonObjects (cs : List Char) : List (List Char) :=
  iterGo cs 0 []

/-! ### `_salvage_nodes_edges_from_partial` (graph_store.py lines 218–256) -/

/-- The per-span classification loop: parse each balanced span, skip
non-objects and root-shaped objects (`nodes`/`edges` key present); an
object with `source` and `target` keys is an edge, else one with `id` and
`label` keys is a node, deduplicated by its `id` value (first occurrence
wins).  Accumulators are kept in reverse. -/
def salvageGo : List (List Char) → List Json → List Json → List Json →
    List Json × List Json
  | [], nodesAcc, edgesAcc, _ => (nodesAcc.reverse, edgesAcc.reverse)
  | span :: rest, nodesAcc, edgesAcc, seen =>
      match jsonLoadsL span with
      | .error _ => salvageGo rest nodesAcc edgesAcc seen
      | .ok v =>
          match v with
          | .obj kvs =>
              if Json.hasKey kvs "nodes" || Json.hasKey kvs "edges" then
                salvageGo rest nodesAcc edgesAcc seen
              else if Json.hasKey kvs "source" && Json.hasKey kvs "target" then
                salvageGo rest nodesAcc (.obj kvs :: edgesAcc) seen
              else if Json.hasKey kvs "id" && Json.hasKey kvs "label" then
                let nodeId := (Json.getKey? kvs "id").getD .null
                if seen.any (fun x => beqJson x nodeId) then
                  salvageGo rest nodesAcc edgesAcc seen
                else
                  salvageGo rest (.obj kvs :: nodesAcc) edgesAcc
                    (nodeId :: seen)
              else
                salvageGo rest nodesAcc edgesAcc seen
          | _ => salvageGo rest nodesAcc edgesAcc seen

/-- `_salvage_nodes_edges_from_partial`. -/
def salvageNodesEdgesL (raw : List Char) : List Json × List Json :=
  salvageGo (iterJsonObjects raw) [] [] []

def salvageNodesEdges (raw : String) : List Json × List Json :=
  salvageNodesEdgesL raw.toList

/-! ### `build_graph_for_session` (graph_store.py lines 282–369)

Only the extraction/upsert control flow is modelled; the LLM call supplies
the `extraction` string (the function's effective input), and the
Neo4j/pyvis side effects are recorded in the outcome constructor. -/

/-- Control-flow outcome of `build_graph_for_session` on an LLM response:
  * `success nodes edges` — the direct/trimmed parse succeeded on a JSON
    object; `_upsert_graph` runs with `data.get("nodes", [])` and
    `data.get("edges", [])` and the success summary is returned;
  * `salvagedResult nodes edges` — parsing failed but salvage found
    something; `_upsert_graph` runs with the salvaged lists;
  * `failure summary` — parsing and salvage both failed: the function
    returns `(summary, None)` before any store interaction, `summary`
    carrying the raw LLM text verbatim;
  * `raised` — an exception escapes to the caller (`data.get` on a parsed
    non-dict value raises `AttributeError`). -/
inductive BuildOutcome where
  | success (nodes edges : Json) : BuildOutcome
  | salvagedResult (nodes edges : List Json) : BuildOutcome
  | failure (summary : String) : BuildOutcome
  | raised : BuildOutcome

/-- The prefix of the total-failure summary
(`"Не удалось корректно разобрать граф из ответа LLM. Вот ответ модели:\n\n"`
followed by the raw extraction text). -/
def failureSummaryHead : String :=
  "Не удалось корректно разобрать граф из ответа LLM. Вот ответ модели:\n\n"

/-- The parsing cascade of `build_graph_for_session` applied to the raw
LLM response. -/
def buildGraphOutcome (extraction : String) : BuildOutcome :=
  let jsonBlock := extractJsonBlock extraction
  match tryParseJsonWithTrimming jsonBlock with
  | .ok data =>
      match data with
      | .obj kvs =>
          .success (Json.getKeyD kvs "nodes" (.arr []))
            (Json.getKeyD kvs "edges" (.arr []))
      | _ => .raised
  | .error _ =>
      match salvageNodesEdges jsonBlock with
      | ([], []) => .failure (failureSummaryHead ++ extraction)
      | (nodes, edges) => .salvagedResult nodes edges

/-! ### `_upsert_graph` (graph_store.py lines 85–122)

The Neo4j store is modelled as finite sets of node and relationship
records.  Every node this application creates carries the `Entity` label
and the properties `id`, `session_id` (the namespace) and `label`; every
relationship is a `RELATION` between two nodes of the same namespace and
carries a `type` property, so an edge record stores the two endpoint ids,
the shared namespace and the type.  Input nodes are `(id, label)` pairs
and input edges `(source, target, type)` triples, the non-`None` values of
`node.get(…)`/`edge.get(…)` (Neo4j rejects `MERGE` on a null property). -/

/-- A Neo4j node created by `MERGE (n:Entity {id: $id, session_id: $sid})
SET n.label = $label`. -/
structure NodeRec where
  id : String
  sid : String
  label : String
deriving DecidableEq, Repr

/-- A `RELATION {type: $type}` relationship between the `(source, sid)` and
`(target, sid)` nodes. -/
structure EdgeRec where
  source : String
  target : String
  sid : String
  type : String
deriving DecidableEq, Repr

/-- The graph store state. -/
@[ext]
structure GState where
  nodes : Finset NodeRec
  edges : Finset EdgeRec
deriving DecidableEq

/-- The relationship `e` is incident to the node `n` (in either
direction): relationships connect nodes of their own namespace. -/
def incident (n : NodeRec) (e : EdgeRec) : Prop :=
  e.sid = n.sid ∧ (e.source = n.id ∨ e.target = n.id)

instance (n : NodeRec) (e : EdgeRec) : Decidable (incident n e) := by
  unfold incident; infer_instance

/-- `n` has at least one incident relationship — the condition the
`MATCH (n {session_id: $sid})-[r]-()` clear pattern adds on top of the
namespace check. -/
def hasRel (st : GState) (n : NodeRec) : Prop :=
  ∃ e ∈ st.edges, incident n e

instance (st : GState) (n : NodeRec) : Decidable (hasRel st n) := by
  unfold hasRel; infer_instance

/-- A node matched (hence deleted) by the clear step for namespace `sid`:
it must carry the namespace *and* have at least one incident
relationship. -/
def clearDeleted (st : GState) (sid : String) (n : NodeRec) : Prop :=
  n.sid = sid ∧ hasRel st n

instance (st : GState) (sid : String) (n : NodeRec) :
    Decidable (clearDeleted st sid n) := by
  unfold clearDeleted; infer_instance

/-- The clear step (`MATCH (n {session_id: $sid})-[r]-() DETACH DELETE n`):
delete every matched node together with every relationship incident to a
deleted node. -/
def clearGraph (st : GState) (sid : String) : GState where
  nodes := st.nodes.filter (fun n => ¬ clearDeleted st sid n)
  edges := st.edges.filter
    (fun e => ¬ ∃ n ∈ st.nodes, clearDeleted st sid n ∧ incident n e)

/-- `MERGE (n:Entity {id: $id, session_id: $sid}) SET n.label = $label`:
replace any record with this `(id, sid)` key by one carrying the new
label (creating it if absent). -/
def insertNode (st : GState) (sid : String) (node : String × String) :
    GState where
  nodes := st.nodes.filter (fun r => ¬ (r.id = node.1 ∧ r.sid = sid)) ∪
    {⟨node.1, sid, node.2⟩}
  edges := st.edges

/-- A node with id `i` exists in namespace `sid`. -/
def presentId (nodesF : Finset NodeRec) (sid : String) (i : String) : Prop :=
  ∃ r ∈ nodesF, r.id = i ∧ r.sid = sid

instance (nodesF : Finset NodeRec) (sid i : String) :
    Decidable (presentId nodesF sid i) := by
  unfold presentId; infer_instance

/-- `MATCH (s:Entity {id: $source, session_id: $sid})
MATCH (t:Entity {id: $target, session_id: $sid})
MERGE (s)-[r:RELATION {type: $type}]->(t)`: when either endpoint is
missing the `MATCH` produces no row and the statement is a no-op. -/
def insertEdge (st : GState) (sid : String)
    (edge : String × String × String) : GState :=
  if presentId st.nodes sid edge.1 ∧ presentId st.nodes sid edge.2.1 then
    { st with edges := st.edges ∪ {⟨edge.1, edge.2.1, sid, edge.2.2⟩} }
  else st

/-- `_upsert_graph`: clear the namespace, insert all nodes, then insert
all edges. -/
def upsertGraph (st : GState) (sid : String)
    (nodes : List (String × String))
    (edges : List (String × String × String)) : GState :=
  edges.foldl (fun s e => insertEdge s sid e)
    (nodes.foldl (fun s n => insertNode s sid n) (clearGraph st sid))

/-- Well-formedness of a store state: every relationship's endpoint nodes
exist (true of every Neo4j state — relationships cannot dangle). -/
def WFState (st : GState) : Prop :=
  ∀ e ∈ st.edges,
    (∃ n ∈ st.nodes, n.id = e.source ∧ n.sid = e.sid) ∧
    (∃ n ∈ st.nodes, n.id = e.target ∧ n.sid = e.sid)

instance (st : GState) : Decidable (WFState st) := by
  unfold WFState; infer_instance

/-- The node records namespace `sid` holds after inserting the node list
`l`: one record per id, carrying the label of the id's last occurrence
(each later `MERGE … SET` overwrites the label). -/
def nodeRecsOf (sid : String) : List (String × String) → Finset NodeRec
  | [] => ∅
  | p :: t =>
      if p.1 ∈ t.map Prod.fst then nodeRecsOf sid t
      else insert ⟨p.1, sid, p.2⟩ (nodeRecsOf sid t)

/-- The relationship records created from the edge list `l` when the node
set is `nodesF`: exactly the entries whose both endpoints are present. -/
def keptEdges (nodesF : Finset NodeRec) (sid : String) :
    List (String × String × String) → Finset EdgeRec
  | [] => ∅
  | e :: t =>
      if presentId nodesF sid e.1 ∧ presentId nodesF sid e.2.1 then
        insert ⟨e.1, e.2.1, sid, e.2.2⟩ (keptEdges nodesF sid t)
      else keptEdges nodesF sid t

/-! ### The size reducer (lightrag_graph.py lines 209–237)

`_build_lightrag_graph_for_session_async` fetches all edges and all entity
labels, and when `len(all_entities) > max_nodes` keeps the `max_nodes`
entities of highest degree, sorting with Python's stable `sorted(…,
key=…, reverse=True)`. -/

/-- One element of `all_edges_data`: `edge_data.get("source")` /
`edge_data.get("target")` may be absent (`none`); Python truthiness also
discards the empty string. -/
structure LREdge where
  source : Option String
  target : Option String
deriving DecidableEq, Repr

/-- Python truthiness of an optional string (`if src:`). -/
def truthyOptStr : Option String → Bool
  | none => false
  | some s => s ≠ ""

/-- `node_degree.get(x, 0)`: the number of increments key `x` received in
the degree loop — one per edge whose (truthy) source is `x` plus one per
edge whose (truthy) target is `x`. -/
def lrDegree (edgesData : List LREdge) (x : String) : Nat :=
  edgesData.countP (fun d => truthyOptStr d.source && d.source == some x) +
    edgesData.countP (fun d => truthyOptStr d.target && d.target == some x)

/-- Insert `x` into a list already sorted by `key` descending, after every
element with a strictly larger key and before the first element with an
equal or smaller key (matching the stability of Python `sorted(…,
reverse=True)`: `x` comes from earlier in the original enumeration than
everything already in the list). -/
def insDesc (key : α → Nat) (x : α) : List α → List α
  | [] => [x]
  | y :: ys => if key x < key y then y :: insDesc key x ys else x :: y :: ys

/-- Stable sort by `key` descending: the model of
`sorted(l, key=key, reverse=True)`. -/
def sortDescStable (key : α → Nat) : List α → List α
  | [] => []
  | x :: xs => insDesc key x (sortDescStable key xs)

/-- The node-selection step: when there are more entities than
`max_nodes`, keep the top `max_nodes` by degree (stable descending sort),
otherwise keep all entities. -/
def selectedEntities (allEntities : List String) (edgesData : List LREdge)
    (maxNodes : Nat) : List String :=
  if maxNodes < allEntities.length then
    (sortDescStable (lrDegree edgesData) allEntities).take maxNodes
  else allEntities

/-! ### The concurrency coordinator (lightrag_graph.py lines 308–474)

State: the global `_build_lock` (a `threading.Lock`, held or not) and the
`_graph_build_tasks` dict.  A task record's `thread` field holds `some ()`
while it stores a live worker-thread handle (`thread and
thread.is_alive()`), and `none` once the worker replaced the record on
completion.  The build body itself (LightRAG) is abstracted as the
worker's outcome: `Except.ok (summary, html)` for a normal return,
`Except.error e` for a raised exception (captured as `str(e)`). -/

structure TaskRec where
  thread : Option Unit
  done : Bool
  result : Option (String × Option String)
  error : Option String
deriving DecidableEq, Repr

structure CoordState where
  lockHeld : Bool
  tasks : String → Option TaskRec

/-- Outcome of the blocking facade `build_lightrag_graph_for_session`. -/
inductive BlockingOutcome where
  | busy (msg : String) : BlockingOutcome
  | returned (r : String × Option String) : BlockingOutcome
  | raisedErr (e : String) : BlockingOutcome
deriving DecidableEq, Repr

/-- The "build already in progress" message of the blocking facade. -/
def busyMessage : String :=
  "⏳ Граф уже строится. Пожалуйста, дождитесь завершения предыдущего запроса."

/-- `build_lightrag_graph_for_session` (blocking mode): try the global
lock without waiting; when already held, return the busy message without
running anything.  Otherwise run the worker on a joined thread and release
the lock in `finally` (so the lock is back to free, i.e. the state is
unchanged), returning the worker's result or re-raising its exception. -/
def buildBlocking (st : CoordState)
    (worker : Except String (String × Option String)) :
    CoordState × BlockingOutcome :=
  if st.lockHeld then (st, .busy busyMessage)
  else
    (st, match worker with
      | .ok r => .returned r
      | .error e => .raisedErr e)

/-- The record `start_graph_build_async` stores before starting the worker
thread. -/
def freshTask : TaskRec :=
  { thread := some (), done := false, result := none, error := none }

/-- `start_graph_build_async`: reject when this session already has a task
with a live thread; otherwise try the global lock without waiting and
reject when it is held; otherwise store a fresh running record
(overwriting any previous record for the session) and start the worker. -/
def startGraphBuildAsync (st : CoordState) (sid : String) :
    CoordState × Bool :=
  let runningAlready :=
    match st.tasks sid with
    | some task => task.thread.isSome
    | none => false
  if runningAlready then (st, false)
  else if st.lockHeld then (st, false)
  else
    ({ lockHeld := true,
       tasks := fun s => if s = sid then some freshTask else st.tasks s },
     true)

/-- The background worker's completion (lightrag_graph.py lines 393–412):
replace the task record with a done record carrying the result or the
exception string, then release the global lock. -/
def finishBuild (st : CoordState) (sid : String)
    (outcome : Except String (String × Option String)) : CoordState where
  lockHeld := false
  tasks := fun s =>
    if s = sid then
      some (match outcome with
        | .ok r => { thread := none, done := true, result := some r,
                     error := none }
        | .error e => { thread := none, done := true, result := none,
                        error := some e })
    else st.tasks s

/-- `get_graph_build_status`: `(is_done, summary_text, graph_html)` plus
the updated task registry.  A missing or still-running task yields
`(False, None, None)`; a done task is popped and its error (when truthy)
or result is returned. -/
def getGraphBuildStatus (st : CoordState) (sid : String) :
    CoordState × (Bool × Option String × Option String) :=
  match st.tasks sid with
  | none => (st, (false, none, none))
  | some task =>
      if task.done = false then (st, (false, none, none))
      else
        let st' : CoordState :=
          { st with tasks := fun s => if s = sid then none else st.tasks s }
        if task.error.getD "" ≠ "" then
          (st', (true,
            some ("❌ Ошибка при построении графа: " ++ task.error.getD ""),
            none))
        else
          match task.result with
          | some r => (st', (true, some r.1, r.2))
          | none =>
              (st', (true,
                some "Не удалось построить граф (неизвестная ошибка).",
                none))

/-! ### Characterization of `_upsert_graph` -/

lemma foldl_insertNode_edges (sid : String) (l : List (String × String)) :
    ∀ st : GState,
      (l.foldl (fun s n => insertNode s sid n) st).edges = st.edges := by
  induction l with
  | nil => intro st; rfl
  | cons p t ih =>
      intro st
      rw [List.foldl_cons, ih]
      rfl

lemma insertEdge_nodes (st : GState) (sid : String)
    (e : String × String × String) : (insertEdge st sid e).nodes = st.nodes := by
  unfold insertEdge
  split <;> rfl

lemma foldl_insertEdge_nodes (sid : String)
    (l : List (String × String × String)) :
    ∀ st : GState,
      (l.foldl (fun s e => insertEdge s sid e) st).nodes = st.nodes := by
  induction l with
  | nil => intro st; rfl
  | cons e t ih =>
      intro st
      rw [List.foldl_cons, ih, insertEdge_nodes]

lemma foldl_insertNode_nodes (sid : String) (l : List (String × String)) :
    ∀ st : GState,
      (l.foldl (fun s n => insertNode s sid n) st).nodes =
        st.nodes.filter
          (fun r => ¬ (r.sid = sid ∧ r.id ∈ l.map Prod.fst)) ∪
          nodeRecsOf sid l := by
  induction l with
  | nil =>
      intro st
      ext r
      simp [nodeRecsOf]
  | cons p t ih =>
      intro st
      rw [List.foldl_cons, ih]
      simp only [insertNode]
      rw [Finset.filter_union, Finset.filter_filter, Finset.union_assoc]
      congr 1
      · apply Finset.filter_congr
        intro r _
        simp only [List.map_cons, List.mem_cons, eq_iff_iff]
        tauto
      · rw [Finset.filter_singleton]
        by_cases hmem : p.1 ∈ t.map Prod.fst
        · have hcond : ¬ ¬ ((⟨p.1, sid, p.2⟩ : NodeRec).sid = sid ∧
              (⟨p.1, sid, p.2⟩ : NodeRec).id ∈ t.map Prod.fst) := by
            simp [hmem]
          rw [if_neg hcond]
          simp [nodeRecsOf, hmem]
        · have hcond : ¬ ((⟨p.1, sid, p.2⟩ : NodeRec).sid = sid ∧
              (⟨p.1, sid, p.2⟩ : NodeRec).id ∈ t.map Prod.fst) := by
            simp [hmem]
          rw [if_pos hcond]
          simp [nodeRecsOf, hmem, Finset.insert_eq]

lemma mem_nodeRecsOf {sid : String} {l : List (String × String)}
    {r : NodeRec} (h : r ∈ nodeRecsOf sid l) :
    r.sid = sid ∧ r.id ∈ l.map Prod.fst := by
  induction l with
  | nil => simp [nodeRecsOf] at h
  | cons p t ih =>
      unfold nodeRecsOf at h
      split at h
      · have := ih h
        exact ⟨this.1, by simp [this.2]⟩
      · rcases Finset.mem_insert.mp h with hr | hr
        · subst hr
          simp
        · have := ih hr
          exact ⟨this.1, by simp [this.2]⟩

lemma nodeRecsOf_covers {sid : String} {l : List (String × String)}
    {i : String} (h : i ∈ l.map Prod.fst) :
    ∃ r ∈ nodeRecsOf sid l, r.id = i ∧ r.sid = sid := by
  induction l with
  | nil => simp at h
  | cons p t ih =>
      unfold nodeRecsOf
      rw [List.map_cons] at h
      rcases List.mem_cons.mp h with hi | hi
      · by_cases hmem : p.1 ∈ t.map Prod.fst
        · rw [if_pos hmem]
          exact ih (hi ▸ hmem)
        · rw [if_neg hmem]
          exact ⟨⟨p.1, sid, p.2⟩, Finset.mem_insert_self _ _, hi.symm, rfl⟩
      · by_cases hmem : p.1 ∈ t.map Prod.fst
        · rw [if_pos hmem]
          exact ih hi
        · rw [if_neg hmem]
          obtain ⟨r, hr, hri, hrs⟩ := ih hi
          exact ⟨r, Finset.mem_insert_of_mem hr, hri, hrs⟩

lemma foldl_insertEdge_edges (sid : String)
    (l : List (String × String × String)) :
    ∀ st : GState,
      (l.foldl (fun s e => insertEdge s sid e) st).edges =
        st.edges ∪ keptEdges st.nodes sid l := by
  induction l with
  | nil =>
      intro st
      simp [keptEdges]
  | cons e t ih =>
      intro st
      rw [List.foldl_cons, ih, insertEdge_nodes]
      by_cases hc : presentId st.nodes sid e.1 ∧ presentId st.nodes sid e.2.1
      · simp only [keptEdges, insertEdge, if_pos hc]
        rw [Finset.union_assoc, Finset.insert_eq]
      · simp only [keptEdges, insertEdge, if_neg hc]

lemma mem_keptEdges {nodesF : Finset NodeRec} {sid : String}
    {l : List (String × String × String)} {x : EdgeRec}
    (h : x ∈ keptEdges nodesF sid l) :
    x.sid = sid ∧ presentId nodesF sid x.source ∧
      presentId nodesF sid x.target ∧
      ∃ e ∈ l, x = ⟨e.1, e.2.1, sid, e.2.2⟩ := by
  induction l with
  | nil => simp [keptEdges] at h
  | cons e t ih =>
      unfold keptEdges at h
      split at h
      · rename_i hc
        rcases Finset.mem_insert.mp h with hx | hx
        · subst hx
          exact ⟨rfl, hc.1, hc.2, e, List.mem_cons_self e t, rfl⟩
        · obtain ⟨h1, h2, h3, e', he', hx⟩ := ih hx
          exact ⟨h1, h2, h3, e', List.mem_cons_of_mem e he', hx⟩
      · obtain ⟨h1, h2, h3, e', he', hx⟩ := ih h
        exact ⟨h1, h2, h3, e', List.mem_cons_of_mem e he', hx⟩

lemma keptEdges_mem_of_present {nodesF : Finset NodeRec} {sid : String}
    {l : List (String × String × String)} {e : String × String × String}
    (he : e ∈ l) (h1 : presentId nodesF sid e.1)
    (h2 : presentId nodesF sid e.2.1) :
    (⟨e.1, e.2.1, sid, e.2.2⟩ : EdgeRec) ∈ keptEdges nodesF sid l := by
  induction l with
  | nil => simp at he
  | cons f t ih =>
      unfold keptEdges
      rcases List.mem_cons.mp he with hef | het
      · subst hef
        rw [if_pos ⟨h1, h2⟩]
        exact Finset.mem_insert_self _ _
      · split
        · exact Finset.mem_insert_of_mem (ih het)
        · exact ih het

/-- Under well-formedness, the clear step removes exactly the namespace's
relationships (each has an endpoint node that is matched and deleted). -/
lemma clearGraph_edges_of_wf {st : GState} {sid : String}
    (hwf : WFState st) :
    (clearGraph st sid).edges = st.edges.filter (fun e => ¬ e.sid = sid) := by
  ext e
  simp only [clearGraph, Finset.mem_filter]
  constructor
  · rintro ⟨he, hno⟩
    refine ⟨he, fun hsid => hno ?_⟩
    obtain ⟨⟨n, hn, hnid, hnsid⟩, _⟩ := hwf e he
    refine ⟨n, hn, ⟨by rw [hnsid, hsid], ⟨e, he, hnsid.symm, Or.inl hnid.symm⟩⟩,
      hnsid.symm, Or.inl hnid.symm⟩
  · rintro ⟨he, hnsid⟩
    refine ⟨he, ?_⟩
    rintro ⟨n, _, hdel, hinc⟩
    exact hnsid (hinc.1.trans hdel.1)

/-- The node part of the whole upsert. -/
lemma upsertGraph_nodes (st : GState) (sid : String)
    (N : List (String × String)) (E : List (String × String × String)) :
    (upsertGraph st sid N E).nodes =
      (clearGraph st sid).nodes.filter
        (fun r => ¬ (r.sid = sid ∧ r.id ∈ N.map Prod.fst)) ∪
        nodeRecsOf sid N := by
  unfold upsertGraph
  rw [foldl_insertEdge_nodes, foldl_insertNode_nodes]

/-- The edge part of the whole upsert, under well-formedness. -/
lemma upsertGraph_edges {st : GState} (sid : String)
    (N : List (String × String)) (E : List (String × String × String))
    (hwf : WFState st) :
    (upsertGraph st sid N E).edges =
      st.edges.filter (fun e => ¬ e.sid = sid) ∪
        keptEdges (upsertGraph st sid N E).nodes sid E := by
  have hn : (upsertGraph st sid N E).nodes =
      (N.foldl (fun s n => insertNode s sid n) (clearGraph st sid)).nodes := by
    unfold upsertGraph
    rw [foldl_insertEdge_nodes]
  rw [hn]
  unfold upsertGraph
  rw [foldl_insertEdge_edges, foldl_insertNode_edges,
    clearGraph_edges_of_wf hwf]

lemma clearGraph_nodes (st : GState) (sid : String) :
    (clearGraph st sid).nodes =
      st.nodes.filter (fun n => ¬ clearDeleted st sid n) := rfl

/-- The upsert preserves well-formedness of the store. -/
lemma WFState_upsertGraph {st : GState} {sid : String}
    {N : List (String × String)} {E : List (String × String × String)}
    (hwf : WFState st) : WFState (upsertGraph st sid N E) := by
  intro e he
  rw [upsertGraph_edges sid N E hwf] at he
  rcases Finset.mem_union.mp he with he' | he'
  · obtain ⟨hein, hnsid⟩ := Finset.mem_filter.mp he'
    have hmem : ∀ n : NodeRec, n ∈ st.nodes → n.sid = e.sid →
        n ∈ (upsertGraph st sid N E).nodes := by
      intro n hn hnsid'
      rw [upsertGraph_nodes]
      refine Finset.mem_union_left _ (Finset.mem_filter.mpr
        ⟨Finset.mem_filter.mpr ⟨hn, ?_⟩, ?_⟩)
      · rintro ⟨h1, -⟩
        exact hnsid (by rw [← hnsid', h1])
      · rintro ⟨h1, -⟩
        exact hnsid (by rw [← hnsid', h1])
    obtain ⟨⟨n1, hn1, hn1id, hn1sid⟩, ⟨n2, hn2, hn2id, hn2sid⟩⟩ := hwf e hein
    exact ⟨⟨n1, hmem n1 hn1 hn1sid, hn1id, hn1sid⟩,
      ⟨n2, hmem n2 hn2 hn2sid, hn2id, hn2sid⟩⟩
  · obtain ⟨hsid, hp1, hp2, -⟩ := mem_keptEdges he'
    obtain ⟨r1, hr1, hr1id, hr1sid⟩ := hp1
    obtain ⟨r2, hr2, hr2id, hr2sid⟩ := hp2
    exact ⟨⟨r1, hr1, hr1id, by rw [hr1sid, hsid]⟩,
      ⟨r2, hr2, hr2id, by rw [hr2sid, hsid]⟩⟩

/-! ## Claim C4 — dangling edges are skipped, valid edges inserted -/

/-- C4: within one upsert, node insertion completes before any edge is
considered (the endpoint check of every edge runs against the final node
set, so an edge whose endpoints come from anywhere in the node list is
kept); an edge whose source or target id has no node record in the
namespace is silently skipped — its relationship never appears — while
every edge whose both endpoints exist is inserted; and every id of the
node list is present after node insertion. -/
theorem upsert_dangling_edges (st : GState) (sid : String)
    (N : List (String × String)) (E : List (String × String × String))
    (hwf : WFState st) (e : String × String × String) (he : e ∈ E) :
    (presentId (upsertGraph st sid N E).nodes sid e.1 ∧
        presentId (upsertGraph st sid N E).nodes sid e.2.1 →
      (⟨e.1, e.2.1, sid, e.2.2⟩ : EdgeRec) ∈ (upsertGraph st sid N E).edges) ∧
      (¬ (presentId (upsertGraph st sid N E).nodes sid e.1 ∧
          presentId (upsertGraph st sid N E).nodes sid e.2.1) →
        (⟨e.1, e.2.1, sid, e.2.2⟩ : EdgeRec) ∉
          (upsertGraph st sid N E).edges) ∧
      (∀ i ∈ N.map Prod.fst, presentId (upsertGraph st sid N E).nodes sid i) := by
  refine ⟨?_, ?_, ?_⟩
  · rintro ⟨h1, h2⟩
    rw [upsertGraph_edges sid N E hwf]
    exact Finset.mem_union_right _ (keptEdges_mem_of_present he h1 h2)
  · intro hnot hmem
    rw [upsertGraph_edges sid N E hwf] at hmem
    rcases Finset.mem_union.mp hmem with h' | h'
    · exact (Finset.mem_filter.mp h').2 rfl
    · obtain ⟨-, hp1, hp2, ⟨f, -, heq⟩⟩ := mem_keptEdges h'
      have hs : f.1 = e.1 := congrArg EdgeRec.source heq.symm
      have ht : f.2.1 = e.2.1 := congrArg EdgeRec.target heq.symm
      exact hnot ⟨hs ▸ hp1, ht ▸ hp2⟩
  · intro i hi
    rw [upsertGraph_nodes]
    obtain ⟨r, hr, hri, hrs⟩ := @nodeRecsOf_covers sid N _ hi
    exact ⟨r, Finset.mem_union_right _ hr, hri, hrs⟩

/-- C4 witness: upserting into an empty store with nodes `a`, `b`, a
valid edge `a→b` and a dangling edge `a→zz` inserts the valid edge,
skips the dangling one, and registers both node ids. -/
theorem upsert_dangling_edges_witness :
    (⟨"a", "b", "s", "rel"⟩ : EdgeRec) ∈
      (upsertGraph ⟨∅, ∅⟩ "s" [("a", "A"), ("b", "B")]
        [("a", "b", "rel"), ("a", "zz", "dang")]).edges ∧
      (⟨"a", "zz", "s", "dang"⟩ : EdgeRec) ∉
        (upsertGraph ⟨∅, ∅⟩ "s" [("a", "A"), ("b", "B")]
          [("a", "b", "rel"), ("a", "zz", "dang")]).edges := by
  have h1 := upsert_dangling_edges ⟨∅, ∅⟩ "s" [("a", "A"), ("b", "B")]
    [("a", "b", "rel"), ("a", "zz", "dang")] (by decide)
    ("a", "b", "rel") (by simp)
  have h2 := upsert_dangling_edges ⟨∅, ∅⟩ "s" [("a", "A"), ("b", "B")]
    [("a", "b", "rel"), ("a", "zz", "dang")] (by decide)
    ("a", "zz", "dang") (by simp)
  exact ⟨h1.1 (by decide), h2.2.1 (by decide)⟩

/-! ## Claim C3 — idempotence of the upsert -/

/-- C3 (amended): re-running the upsert with the identical input against
the same namespace reproduces the identical store state, for well-formed
initial states in which every relation-free node of the namespace either
reappears in the result's node list or is referenced by none of its edges
(the clear step leaves relation-free namespace nodes behind; one whose id
an edge references but the node list does not supply can absorb an edge
on the first run that the second run cannot rebuild). -/
theorem upsert_idempotent (st : GState) (sid : String)
    (N : List (String × String)) (E : List (String × String × String))
    (hwf : WFState st)
    (hiso : ∀ n ∈ st.nodes, n.sid = sid → ¬ hasRel st n →
      n.id ∈ N.map Prod.fst ∨ ∀ e ∈ E, e.1 ≠ n.id ∧ e.2.1 ≠ n.id) :
    upsertGraph (upsertGraph st sid N E) sid N E =
      upsertGraph st sid N E := by
  set S1 := upsertGraph st sid N E with hS1def
  have hwf1 : WFState S1 := WFState_upsertGraph hwf
  have hS1edges : S1.edges =
      st.edges.filter (fun e => ¬ e.sid = sid) ∪
        keptEdges S1.nodes sid E := upsertGraph_edges sid N E hwf
  have hnodes : (upsertGraph S1 sid N E).nodes = S1.nodes := by
    rw [upsertGraph_nodes]
    apply Finset.Subset.antisymm
    · apply Finset.union_subset
      · intro r hr
        rw [clearGraph_nodes] at hr
        exact Finset.filter_subset _ _ ((Finset.filter_subset _ _) hr)
      · intro r hr
        rw [hS1def, upsertGraph_nodes]
        exact Finset.mem_union_right _ hr
    · intro x hx
      by_cases hxsid : x.sid = sid
      · by_cases hxN : x.id ∈ N.map Prod.fst
        · -- a namespace node re-supplied by the node list sits in `recs N`
          have hx' := hx
          rw [hS1def, upsertGraph_nodes] at hx'
          rcases Finset.mem_union.mp hx' with hx'' | hx''
          · exact absurd ⟨hxsid, hxN⟩ (Finset.mem_filter.mp hx'').2
          · exact Finset.mem_union_right _ hx''
        · -- a surviving stale node: isolated in `st`, untouched by `E`
          have hx' := hx
          rw [hS1def, upsertGraph_nodes] at hx'
          rcases Finset.mem_union.mp hx' with hx'' | hx''
          · obtain ⟨hclear, -⟩ := Finset.mem_filter.mp hx''
            rw [clearGraph_nodes] at hclear
            obtain ⟨hst, hndel⟩ := Finset.mem_filter.mp hclear
            have hnorel : ¬ hasRel st x := fun hr => hndel ⟨hxsid, hr⟩
            rcases hiso x hst hxsid hnorel with h' | h'
            · exact absurd h' hxN
            · refine Finset.mem_union_left _ (Finset.mem_filter.mpr
                ⟨?_, ?_⟩)
              · rw [clearGraph_nodes]
                refine Finset.mem_filter.mpr ⟨hx, ?_⟩
                rintro ⟨-, hrel⟩
                obtain ⟨e, heS1, hinc⟩ := hrel
                rw [hS1edges] at heS1
                rcases Finset.mem_union.mp heS1 with he' | he'
                · exact (Finset.mem_filter.mp he').2 (hinc.1.trans hxsid)
                · obtain ⟨-, -, -, entry, hentry, heq⟩ := mem_keptEdges he'
                  have hcontra := h' entry hentry
                  rcases hinc.2 with hsrc | htgt
                  · exact hcontra.1
                      ((congrArg EdgeRec.source heq).symm.trans hsrc)
                  · exact hcontra.2
                      ((congrArg EdgeRec.target heq).symm.trans htgt)
              · rintro ⟨-, hN⟩
                exact hxN hN
          · exact absurd (mem_nodeRecsOf hx'').2 hxN
      · -- nodes of other namespaces are untouched
        refine Finset.mem_union_left _ (Finset.mem_filter.mpr ⟨?_, ?_⟩)
        · rw [clearGraph_nodes]
          exact Finset.mem_filter.mpr ⟨hx, fun hdel => hxsid hdel.1⟩
        · rintro ⟨h1, -⟩
          exact hxsid h1
  have hedges : (upsertGraph S1 sid N E).edges = S1.edges := by
    rw [upsertGraph_edges sid N E hwf1, hnodes]
    conv_lhs => rw [hS1edges]
    rw [Finset.filter_union]
    have h1 : (st.edges.filter (fun e => ¬ e.sid = sid)).filter
        (fun e => ¬ e.sid = sid) =
          st.edges.filter (fun e => ¬ e.sid = sid) := by
      rw [Finset.filter_filter]
      exact Finset.filter_congr (fun e _ => by simp)
    have h2 : (keptEdges S1.nodes sid E).filter (fun e => ¬ e.sid = sid) =
        ∅ := by
      rw [Finset.filter_eq_empty_iff]
      intro x hx
      simp [(mem_keptEdges hx).1]
    rw [h1, h2, Finset.union_empty, ← hS1edges]
  exact GState.ext hnodes hedges

/-- The C3 counterexample state: a single relation-free node `X` of
namespace `s1`. -/
def c3State : GState := ⟨{⟨"X", "s1", "x"⟩}, ∅⟩

/-- C3 counterexample: against `c3State` — well-formed — the result with
node list `[Y]` and edge list `[(X, Y)]` is not idempotent: the first run
keeps the stale isolated `X` and attaches the edge `X→Y` to it, the
second run's clear then deletes `X` (now it has a relation) and cannot
recreate it, so the second run's final state differs (it loses both `X`
and the edge). -/
theorem upsert_not_idempotent :
    WFState c3State ∧
      upsertGraph (upsertGraph c3State "s1" [("Y", "y")] [("X", "Y", "t")])
          "s1" [("Y", "y")] [("X", "Y", "t")] ≠
        upsertGraph c3State "s1" [("Y", "y")] [("X", "Y", "t")] ∧
      NodeRec.mk "X" "s1" "x" ∈
        (upsertGraph c3State "s1" [("Y", "y")] [("X", "Y", "t")]).nodes ∧
      NodeRec.mk "X" "s1" "x" ∉
        (upsertGraph (upsertGraph c3State "s1" [("Y", "y")] [("X", "Y", "t")])
          "s1" [("Y", "y")] [("X", "Y", "t")]).nodes := by
  refine ⟨by decide, by decide, by decide, by decide⟩

set_option maxHeartbeats 800000 in
/-- C3 witness: a store holding a stale relation-free node whose id the
node list re-supplies satisfies the amended hypothesis, and the upsert is
idempotent there. -/
theorem upsert_idempotent_witness :
    WFState (⟨{⟨"a", "s", "old"⟩}, ∅⟩ : GState) ∧
      upsertGraph (upsertGraph ⟨{⟨"a", "s", "old"⟩}, ∅⟩ "s"
          [("a", "A"), ("b", "B")] [("a", "b", "rel"), ("a", "zz", "dang")])
          "s" [("a", "A"), ("b", "B")] [("a", "b", "rel"), ("a", "zz", "dang")] =
        upsertGraph ⟨{⟨"a", "s", "old"⟩}, ∅⟩ "s"
          [("a", "A"), ("b", "B")] [("a", "b", "rel"), ("a", "zz", "dang")] := by
  constructor
  · decide
  · apply upsert_idempotent
    · decide
    · decide

/-! ## Claim C1 — the clear step and relation-free nodes

The spec requires the clear step to delete *every* node of the namespace,
"including nodes that have no relations".  The Cypher pattern
`MATCH (n {session_id: $sid})-[r]-()` only matches nodes with at least one
incident relationship, so a relation-free node of the namespace survives
the clear step — and the whole upsert. -/

/-- A store state holding a single relation-free node of namespace `s1`
(for example left over from an earlier salvaged build). -/
def c1StaleState : GState := ⟨{⟨"A", "s1", "stale"⟩}, ∅⟩

/-- C1 (code-bug evidence): upserting namespace `s1` — with an empty
result, and with a fresh non-empty result — leaves the relation-free stale
node `A` in place, although the claim requires the clear step to delete
every node of the namespace including nodes that have no relations. -/
theorem clear_leaves_relation_free_node :
    upsertGraph c1StaleState "s1" [] [] = c1StaleState ∧
      NodeRec.mk "A" "s1" "stale" ∈
        (upsertGraph c1StaleState "s1" [("B", "fresh")] []).nodes := by
  constructor <;> decide

/-! ## Claim C5 — one-shot status poll -/

/-- A status poll finding no task record answers not-started. -/
lemma getStatus_no_task (st : CoordState) (sid : String)
    (h : st.tasks sid = none) :
    getGraphBuildStatus st sid = (st, (false, none, none)) := by
  unfold getGraphBuildStatus
  rw [h]

/-- C5: once a session's background build task is done, the first status
poll returns `is_done = true` with the error message (for a worker that
raised, stored as a non-empty string) or the build result, and removes the
task record; an immediately following second poll for the same session
returns the not-started answer `(false, none, none)`. -/
theorem getStatus_one_shot (st : CoordState) (sid : String) (t : TaskRec)
    (h1 : st.tasks sid = some t) (h2 : t.done = true) :
    ((getGraphBuildStatus st sid).2).1 = true ∧
      (getGraphBuildStatus st sid).1.tasks sid = none ∧
      (∀ e, t.error = some e → e ≠ "" →
        (getGraphBuildStatus st sid).2 =
          (true, some ("❌ Ошибка при построении графа: " ++ e), none)) ∧
      (t.error = none → ∀ r, t.result = some r →
        (getGraphBuildStatus st sid).2 = (true, some r.1, r.2)) ∧
      getGraphBuildStatus (getGraphBuildStatus st sid).1 sid =
        ((getGraphBuildStatus st sid).1, (false, none, none)) := by
  have hdone : (t.done = false) = False := by simp [h2]
  refine ⟨?_, ?_, ?_, ?_, ?_⟩
  · simp only [getGraphBuildStatus, h1, hdone, if_false]
    split
    · rfl
    · split <;> rfl
  · simp only [getGraphBuildStatus, h1, hdone, if_false]
    split
    · simp
    · split <;> simp
  · intro e he hne
    simp only [getGraphBuildStatus, h1, hdone, if_false, he]
    rw [if_pos (by simpa using hne)]
    rfl
  · intro he r hr
    simp only [getGraphBuildStatus, h1, hdone, if_false, he, hr]
    rw [if_neg (by simp)]
  · have hpop : (getGraphBuildStatus st sid).1.tasks sid = none := by
      simp only [getGraphBuildStatus, h1, hdone, if_false]
      split
      · simp
      · split <;> simp
    exact getStatus_no_task _ _ hpop

/-- A coordinator state for the C5 witness: lock free, one done task for
session `s1` carrying a successful result. -/
def c5WitState : CoordState :=
  ⟨false, fun s =>
    if s = "s1" then some ⟨none, true, some ("граф готов", none), none⟩
    else none⟩

/-- C5 witness: the one-shot poll property evaluated on `c5WitState`: the
first poll delivers the stored result and pops the record, the second poll
answers not-started. -/
theorem getStatus_one_shot_witness :
    ((getGraphBuildStatus c5WitState "s1").2).1 = true ∧
      (getGraphBuildStatus c5WitState "s1").1.tasks "s1" = none ∧
      (getGraphBuildStatus c5WitState "s1").2 =
        (true, some "граф готов", none) ∧
      getGraphBuildStatus (getGraphBuildStatus c5WitState "s1").1 "s1" =
        ((getGraphBuildStatus c5WitState "s1").1, (false, none, none)) := by
  have h := getStatus_one_shot c5WitState "s1"
    ⟨none, true, some ("граф готов", none), none⟩ rfl rfl
  exact ⟨h.1, h.2.1, h.2.2.2.1 rfl ("граф готов", none) rfl, h.2.2.2.2⟩

/-! ## Claim C6 — busy rejection under the global lock -/

/-- C6: with the global build lock held, the blocking call returns the
busy message without touching the state or running any part of the build,
and a non-blocking start returns `false` without starting anything; a
non-blocking start is also rejected (before the lock is even tried) when
the session already has a task with a live worker thread. -/
theorem busy_rejection (st : CoordState) (sid : String)
    (worker : Except String (String × Option String)) :
    (st.lockHeld = true →
      buildBlocking st worker = (st, .busy busyMessage)) ∧
      (st.lockHeld = true → startGraphBuildAsync st sid = (st, false)) ∧
      (∀ t, st.tasks sid = some t → t.thread.isSome →
        startGraphBuildAsync st sid = (st, false)) := by
  refine ⟨?_, ?_, ?_⟩
  · intro h
    simp [buildBlocking, h]
  · intro h
    cases htask : st.tasks sid with
    | none => simp [startGraphBuildAsync, htask, h]
    | some t => simp [startGraphBuildAsync, htask, h]
  · intro t ht halive
    simp [startGraphBuildAsync, ht, halive]

/-- A coordinator state for the C6 witness: lock held, a running task for
session `s1`. -/
def c6WitState : CoordState :=
  ⟨true, fun s => if s = "s1" then some freshTask else none⟩

/-- C6 witness: on `c6WitState` the blocking call reports busy unchanged,
and the non-blocking start is rejected both for the session with the
running task and for a fresh session. -/
theorem busy_rejection_witness :
    buildBlocking c6WitState (.ok ("r", none)) = (c6WitState, .busy busyMessage) ∧
      startGraphBuildAsync c6WitState "s2" = (c6WitState, false) ∧
      startGraphBuildAsync c6WitState "s1" = (c6WitState, false) := by
  have h1 := busy_rejection c6WitState "s2" (.ok ("r", none))
  have h2 := busy_rejection c6WitState "s1" (.ok ("r", none))
  exact ⟨h1.1 rfl, h1.2.1 rfl, h2.2.2 freshTask rfl rfl⟩

/-! ## Claim C10 — restarting over an unconsumed done task -/

/-- C10: a done task whose record still holds an unconsumed result does
not block a new start: its stored `thread` is `None`, so the
already-running check passes, and with the lock free the start succeeds,
overwriting the record with a fresh running one (result and error reset to
`None`, so the previous result is discarded); the next poll then reports
the build as running, not the old result. -/
theorem start_overwrites_done_task (st : CoordState) (sid : String)
    (t : TaskRec) (h1 : st.tasks sid = some t) (_h2 : t.done = true)
    (h3 : t.thread = none) (h4 : st.lockHeld = false) :
    (startGraphBuildAsync st sid).2 = true ∧
      (startGraphBuildAsync st sid).1.lockHeld = true ∧
      (startGraphBuildAsync st sid).1.tasks sid = some freshTask ∧
      freshTask.done = false ∧ freshTask.result = none ∧
      freshTask.error = none ∧
      (getGraphBuildStatus (startGraphBuildAsync st sid).1 sid).2 =
        (false, none, none) := by
  have hstart : startGraphBuildAsync st sid =
      ({ lockHeld := true,
         tasks := fun s => if s = sid then some freshTask else st.tasks s },
       true) := by
    unfold startGraphBuildAsync
    rw [if_neg, if_neg]
    · simp [h4]
    · simp [h1, h3]
  rw [hstart]
  refine ⟨rfl, rfl, by simp, rfl, rfl, rfl, ?_⟩
  simp [getGraphBuildStatus, freshTask]

/-- A coordinator state for the C10 witness: lock free, a done task for
`s1` holding an unconsumed successful result. -/
def c10WitState : CoordState :=
  ⟨false, fun s =>
    if s = "s1" then some ⟨none, true, some ("старый результат", none), none⟩
    else none⟩

/-- C10 witness: restarting over the unconsumed done task of
`c10WitState` succeeds and replaces the record with a fresh running one. -/
theorem start_overwrites_done_task_witness :
    (startGraphBuildAsync c10WitState "s1").2 = true ∧
      (startGraphBuildAsync c10WitState "s1").1.lockHeld = true ∧
      (startGraphBuildAsync c10WitState "s1").1.tasks "s1" = some freshTask ∧
      freshTask.done = false ∧ freshTask.result = none ∧
      freshTask.error = none ∧
      (getGraphBuildStatus (startGraphBuildAsync c10WitState "s1").1 "s1").2 =
        (false, none, none) :=
  start_overwrites_done_task c10WitState "s1"
    ⟨none, true, some ("старый результат", none), none⟩ rfl rfl rfl rfl

/-! ## Character-subset helper lemmas for the extractor -/

lemma mem_of_mem_dropWhile {c : Char} {p : Char → Bool} {cs : List Char}
    (h : c ∈ cs.dropWhile p) : c ∈ cs :=
  (List.dropWhile_sublist p).subset h

lemma mem_of_mem_pyStrip {c : Char} {cs : List Char}
    (h : c ∈ pyStrip cs) : c ∈ cs := by
  unfold pyStrip at h
  rw [List.mem_reverse] at h
  have h' := mem_of_mem_dropWhile h
  rw [List.mem_reverse] at h'
  exact mem_of_mem_dropWhile h'

lemma mem_of_mem_pyRstrip {c : Char} {cs : List Char}
    (h : c ∈ pyRstrip cs) : c ∈ cs := by
  unfold pyRstrip at h
  rw [List.mem_reverse] at h
  have h' := mem_of_mem_dropWhile h
  rwa [List.mem_reverse] at h'

/-- A one-character pattern matching at the head of a list means the
character occurs in the list. -/
lemma mem_of_singleton_match {c : Char} {l : List Char}
    (h : List.isPrefixOf [c] l) : c ∈ l := by
  cases l with
  | nil => simp [List.isPrefixOf] at h
  | cons b bs =>
      simp only [List.isPrefixOf, List.isPrefixOf_nil_left, Bool.and_true,
        beq_iff_eq] at h
      exact h ▸ List.mem_cons_self b bs

/-- `s.find(c)` misses when the character is absent. -/
lemma pyFind_single_eq_none {c : Char} {cs : List Char} (h : c ∉ cs) :
    pyFind cs [c] = none := by
  unfold pyFind
  rw [List.head?_eq_none_iff, List.filter_eq_nil_iff]
  intro i _
  simp only [Bool.not_eq_true]
  rw [Bool.eq_false_iff]
  intro hpre
  exact h ((List.drop_sublist i cs).subset (mem_of_singleton_match hpre))

/-- `s.rfind(c)` misses when the character is absent. -/
lemma pyRfind_single_eq_none {c : Char} {cs : List Char} (h : c ∉ cs) :
    pyRfind cs [c] = none := by
  unfold pyRfind
  rw [List.getLast?_eq_none_iff, List.filter_eq_nil_iff]
  intro i _
  simp only [Bool.not_eq_true]
  rw [Bool.eq_false_iff]
  intro hpre
  exact h ((List.drop_sublist i cs).subset (mem_of_singleton_match hpre))

/-- Every character of the fence-stripped text occurs in the raw text. -/
lemma mem_of_mem_fenceStripped {c : Char} {raw : List Char}
    (h : c ∈ fenceStripped raw) : c ∈ raw := by
  unfold fenceStripped at h
  dsimp only at h
  split at h
  · have h1 := mem_of_mem_pyStrip h
    have h2 : c ∈ (match pyFind (pyStrip raw) ['\n'] with
        | some i => (pyStrip raw).drop (i + 1)
        | none => pyStrip raw) := by
      revert h1
      cases pyRfind (match pyFind (pyStrip raw) ['\n'] with
          | some i => (pyStrip raw).drop (i + 1)
          | none => pyStrip raw) ['`', '`', '`'] with
      | none => exact fun h1 => h1
      | some j => exact fun h1 => (List.take_sublist j _).subset h1
    have h3 : c ∈ pyStrip raw := by
      revert h2
      cases pyFind (pyStrip raw) ['\n'] with
      | none => exact fun h2 => h2
      | some i => exact fun h2 => (List.drop_sublist (i + 1) _).subset h2
    exact mem_of_mem_pyStrip h3
  · exact mem_of_mem_pyStrip h

/-- Without `{` in the raw text, `_extract_json_block` returns the raw
text unchanged. -/
lemma extractJsonBlockL_eq_raw_of_no_brace {raw : List Char}
    (h : '{' ∉ raw) : extractJsonBlockL raw = raw := by
  unfold extractJsonBlockL
  dsimp only
  have hfind : pyFind (fenceStripped raw) ['{'] = none :=
    pyFind_single_eq_none (fun hc => h (mem_of_mem_fenceStripped hc))
  rw [hfind]

/-- With neither `}` nor `]` in the text there is no cut point. -/
lemma lastBraceIdx_eq_none {cs : List Char} (h1 : '}' ∉ cs)
    (h2 : ']' ∉ cs) : lastBraceIdx cs = none := by
  unfold lastBraceIdx
  rw [pyRfind_single_eq_none h1, pyRfind_single_eq_none h2]

/-- With neither `}` nor `]` in the raw text, the trimming loop breaks on
its first iteration and `_try_parse_json_with_trimming` raises whenever
the direct parse fails. -/
lemma tryParse_error_of_no_close {raw : List Char} (h1 : '}' ∉ raw)
    (h2 : ']' ∉ raw) (h3 : (jsonLoadsL raw).isOk = false) :
    tryParseJsonWithTrimmingL raw =
      .error "Unable to parse JSON after trimming" := by
  unfold tryParseJsonWithTrimmingL
  cases hl : jsonLoadsL raw with
  | ok v => rw [hl] at h3; exact absurd h3 (by simp [Except.isOk, Except.toBool])
  | error e =>
      have hsub : ∀ c : Char, c ∈ pyRstrip (raw.take (raw.length - 1)) →
          c ∈ raw :=
        fun c hc => (List.take_sublist _ _).subset (mem_of_mem_pyRstrip hc)
      unfold trimSteps
      dsimp only
      rw [show (200 : Nat) - (198 + 1) = 1 from rfl]
      rw [lastBraceIdx_eq_none (fun hc => h1 (hsub _ hc))
        (fun hc => h2 (hsub _ hc))]
      rfl

/-- Without `{`, the object iterator of the salvage stage never opens a
span and yields nothing. -/
lemma iterGo_eq_nil_of_no_open {cs : List Char} (cur : List Char)
    (h : '{' ∉ cs) : iterGo cs 0 cur = [] := by
  induction cs generalizing cur with
  | nil => rfl
  | cons c rest ih =>
      have hc : ¬ c = '{' := fun hc => h (hc ▸ List.mem_cons_self c rest)
      have hrest : '{' ∉ rest := fun hr => h (List.mem_cons_of_mem c hr)
      unfold iterGo
      rw [if_neg hc]
      by_cases hcc : c = '}'
      · rw [if_pos hcc, if_pos rfl]
        exact ih _ hrest
      · rw [if_neg hcc, if_pos rfl]
        exact ih _ hrest

/-- Without `{`, the salvage stage recovers nothing. -/
lemma salvage_eq_nil_of_no_open {cs : List Char} (h : '{' ∉ cs) :
    salvageNodesEdgesL cs = ([], []) := by
  unfold salvageNodesEdgesL iterJsonObjects
  rw [iterGo_eq_nil_of_no_open [] h]
  rfl

/-! ## Claim C8 — the direct-parse stage is exact -/

/-- C8: whenever the extracted JSON block parses directly as a JSON
object, the pipeline returns exactly that object's `nodes` and `edges`
values, unmodified, a missing key defaulting to the empty array, and
proceeds to upsert them (the `success` outcome). -/
theorem direct_parse_exact (raw : String) (kvs : List (String × Json))
    (h : jsonLoads (extractJsonBlock raw) = .ok (.obj kvs)) :
    buildGraphOutcome raw =
      .success (Json.getKeyD kvs "nodes" (.arr []))
        (Json.getKeyD kvs "edges" (.arr [])) := by
  unfold jsonLoads at h
  have hts : tryParseJsonWithTrimming (extractJsonBlock raw) =
      .ok (.obj kvs) := by
    unfold tryParseJsonWithTrimming tryParseJsonWithTrimmingL
    rw [h]
  unfold buildGraphOutcome
  dsimp only
  rw [hts]

/-- C8 witness: a fenced response whose object lacks the `edges` key
parses to exactly its `nodes` array and the defaulted empty `edges`. -/
theorem direct_parse_exact_witness :
    jsonLoads (extractJsonBlock "```json\n\x7b\"nodes\": [\x7b\"id\": \"n1\", \"label\": \"L1\"\x7d]\x7d\n```") =
      .ok (.obj [("nodes", .arr [.obj [("id", .str "n1"), ("label", .str "L1")]])]) ∧
    buildGraphOutcome "```json\n\x7b\"nodes\": [\x7b\"id\": \"n1\", \"label\": \"L1\"\x7d]\x7d\n```" =
      .success (.arr [.obj [("id", .str "n1"), ("label", .str "L1")]])
        (.arr []) :=
  ⟨rfl, direct_parse_exact _
    [("nodes", .arr [.obj [("id", .str "n1"), ("label", .str "L1")]])] rfl⟩

/-! ## Claim C9 — pure prose yields the total-failure signal -/

/-- C9 (amended): for input containing no `{`, `}` or `]` and not itself
parsing as JSON, the pipeline raises nothing and returns the total-failure
summary carrying the raw text verbatim, with no upsert and no rendered
graph (the `failure` outcome). -/
theorem prose_total_failure (raw : String) (h1 : '{' ∉ raw.toList)
    (h2 : '}' ∉ raw.toList) (h3 : ']' ∉ raw.toList)
    (h4 : (jsonLoads raw).isOk = false) :
    buildGraphOutcome raw = .failure (failureSummaryHead ++ raw) := by
  have hblock : extractJsonBlock raw = raw := by
    unfold extractJsonBlock
    rw [extractJsonBlockL_eq_raw_of_no_brace h1]
    rfl
  unfold buildGraphOutcome
  dsimp only
  rw [hblock]
  have herr : tryParseJsonWithTrimming raw =
      .error "Unable to parse JSON after trimming" := by
    unfold tryParseJsonWithTrimming
    exact tryParse_error_of_no_close h2 h3 h4
  rw [herr]
  have hsal : salvageNodesEdges raw = ([], []) := by
    unfold salvageNodesEdges
    exact salvage_eq_nil_of_no_open h1
  rw [hsal]

/-- C9 counterexample to the original claim: the input `123` contains no
`{` and no `}` (pure prose in the claim's sense), yet the pipeline parses
it as a JSON number and `data.get("nodes", [])` raises an
`AttributeError` to the caller instead of returning the total-failure
signal. -/
theorem prose_claim_counterexample :
    ('{' ∉ "123".toList) ∧ ('}' ∉ "123".toList) ∧
      buildGraphOutcome "123" = .raised := by
  exact ⟨by decide, by decide, rfl⟩

/-- C9 witness: genuine prose (no braces, no bracket, not JSON) produces
the verbatim-carrying total-failure summary. -/
theorem prose_total_failure_witness :
    ('{' ∉ "plain prose answer".toList) ∧
      buildGraphOutcome "plain prose answer" =
        .failure (failureSummaryHead ++ "plain prose answer") :=
  ⟨by decide, prose_total_failure "plain prose answer" (by decide) (by decide)
    (by decide) (by decide)⟩

/-! ## Claim C2 — truncation of a root-shaped document

The salvage iterator only yields *top-level* balanced `{…}` spans: while
the brace depth stays positive (the root `{` never closes, as after any
truncation strictly inside the root object) nothing is ever yielded, and
the trimming loop — whose candidates are prefixes of the unclosed text —
never parses either. -/

/-- Skipping a `{`-free prefix leaves the iterator at depth 0
unchanged (a `}` at depth 0 is ignored by the code). -/
lemma iterGo_append_no_open {pre : List Char} (tl cur : List Char)
    (h : '{' ∉ pre) : iterGo (pre ++ tl) 0 cur = iterGo tl 0 cur := by
  induction pre generalizing cur with
  | nil => rfl
  | cons c p ih =>
      have hc : ¬ c = '{' := fun hc => h (hc ▸ List.mem_cons_self c p)
      have hp : '{' ∉ p := fun hp => h (List.mem_cons_of_mem c hp)
      rw [List.cons_append]
      conv_lhs => unfold iterGo
      rw [if_neg hc]
      by_cases hcc : c = '}'
      · rw [if_pos hcc, if_pos rfl]
        exact ih cur hp
      · rw [if_neg hcc, if_pos rfl]
        exact ih cur hp

/-- While the running brace depth stays positive on every prefix, the
iterator never closes its open span and yields nothing. -/
lemma iterGo_eq_nil_of_pos_depth {cs : List Char} :
    ∀ (d : Nat) (cur : List Char),
      (∀ n ≤ cs.length, 1 ≤ braceDepth d (cs.take n)) →
      iterGo cs d cur = [] := by
  induction cs with
  | nil => intro d cur _; rfl
  | cons c rest ih =>
      intro d cur h
      have hd : 1 ≤ d := by
        have := h 0 (Nat.zero_le _)
        simpa [braceDepth] using this
      have hstep : ∀ n ≤ rest.length,
          1 ≤ braceDepth (braceStep d c) (rest.take n) := by
        intro n hn
        have := h (n + 1) (by simpa using Nat.succ_le_succ hn)
        simpa [List.take_succ_cons, braceDepth] using this
      unfold iterGo
      by_cases hc : c = '{'
      · rw [if_pos hc, if_neg (by omega)]
        apply ih
        intro n hn
        have := hstep n hn
        rwa [hc] at this
        -- braceStep d '{' = d + 1 definitionally
      · rw [if_neg hc]
        by_cases hcc : c = '}'
        · have hne0 : ¬ d = 0 := by omega
          rw [if_pos hcc, if_neg hne0]
          have hne1 : ¬ d = 1 := by
            intro hd1
            have := hstep 0 (Nat.zero_le _)
            rw [hcc, hd1] at this
            simp [braceDepth, braceStep] at this
          rw [if_neg hne1]
          apply ih
          intro n hn
          have := hstep n hn
          rwa [hcc] at this
        · rw [if_neg hcc, if_neg (by omega)]
          apply ih
          intro n hn
          have := hstep n hn
          have hbs : braceStep d c = d := by
            unfold braceStep
            rw [if_neg hc, if_neg hcc]
          rwa [hbs] at this

/-- C2 (amended): when the extracted JSON block has its first `{` never
closed again (the brace depth stays positive ever after, as for any
truncation strictly inside the root object of a root-shaped document) and
— as then happens — no trim candidate parses, the pipeline recovers no
node and no edge at all: the repair stage fails, the object-salvage scan
yields nothing, and the extractor returns the total-failure signal with
the raw text verbatim. -/
theorem truncatedRootNoRecovery (raw : String) (pre rest : List Char)
    (hsplit : (extractJsonBlock raw).toList = pre ++ '{' :: rest)
    (hpre : '{' ∉ pre)
    (hdepth : ∀ n ≤ rest.length, 1 ≤ braceDepth 1 (rest.take n))
    (hfail : (tryParseJsonWithTrimming (extractJsonBlock raw)).isOk = false) :
    buildGraphOutcome raw = .failure (failureSummaryHead ++ raw) := by
  unfold buildGraphOutcome
  dsimp only
  cases htp : tryParseJsonWithTrimming (extractJsonBlock raw) with
  | ok v =>
      rw [htp] at hfail
      exact absurd hfail (by simp [Except.isOk, Except.toBool])
  | error e =>
      have hsal : salvageNodesEdges (extractJsonBlock raw) = ([], []) := by
        unfold salvageNodesEdges salvageNodesEdgesL iterJsonObjects
        rw [hsplit, iterGo_append_no_open _ _ hpre]
        show salvageGo (iterGo ('{' :: rest) 0 []) [] [] [] = ([], [])
        have hone : iterGo ('{' :: rest) 0 [] = iterGo rest 1 ['{'] := by
          conv_lhs => unfold iterGo
          rw [if_pos rfl, if_pos rfl]
        rw [hone, iterGo_eq_nil_of_pos_depth 1 ['{'] hdepth]
        rfl
      rw [hsal]

/-- The C2 counterexample document: a valid root-shaped JSON document of
102 characters with two complete node objects. -/
def c2Doc : String :=
  "\x7b\"nodes\": [\x7b\"id\": \"alpha\", \"label\": \"alpha node\"\x7d, \x7b\"id\": \"beta\", \"label\": \"beta node\"\x7d], \"edges\": []\x7d"

/-- `c2Doc` truncated after its 60th character (cut mid-way through the
second node object). -/
def c2Trunc : String := String.mk (c2Doc.toList.take 60)

/-- C2 counterexample: `c2Doc` is valid root-shaped JSON; its truncation
at character 60 — after the 50th character, leaving the first node object
complete inside the truncated text — is claimed to let the repair stage
recover at least one node or edge, yet the repair stage fails (no trim
candidate parses), the salvage stage recovers nothing, and the pipeline
reports total failure. -/
theorem truncation_recovers_nothing :
    jsonLoads c2Doc =
      .ok (.obj [("nodes", .arr
          [.obj [("id", .str "alpha"), ("label", .str "alpha node")],
           .obj [("id", .str "beta"), ("label", .str "beta node")]]),
        ("edges", .arr [])]) ∧
      c2Trunc.toList.length = 60 ∧ 50 < 60 ∧
      c2Trunc = "\x7b\"nodes\": [" ++
        "\x7b\"id\": \"alpha\", \"label\": \"alpha node\"\x7d" ++ ", \x7b\"id\": \"b" ∧
      jsonLoads "\x7b\"id\": \"alpha\", \"label\": \"alpha node\"\x7d" =
        .ok (.obj [("id", .str "alpha"), ("label", .str "alpha node")]) ∧
      (tryParseJsonWithTrimming (extractJsonBlock c2Trunc)).isOk = false ∧
      salvageNodesEdges (extractJsonBlock c2Trunc) = ([], []) ∧
      buildGraphOutcome c2Trunc = .failure (failureSummaryHead ++ c2Trunc) := by
  refine ⟨rfl, rfl, by omega, by decide, rfl, by decide, rfl, rfl⟩

/-- C2 witness: the amended no-recovery theorem applied to the truncated
document (its JSON block starts at the root `{` and the depth never
returns to zero). -/
theorem truncatedRootNoRecovery_witness :
    buildGraphOutcome c2Trunc = .failure (failureSummaryHead ++ c2Trunc) := by
  apply truncatedRootNoRecovery c2Trunc []
    ((extractJsonBlock c2Trunc).toList.drop 1)
  · decide
  · decide
  · decide
  · decide

/-! ## Claim C7 — the size reducer keeps the top-degree entities -/

lemma insDesc_perm {α : Type*} (key : α → Nat) (x : α) (l : List α) :
    List.Perm (insDesc key x l) (x :: l) := by
  induction l with
  | nil => rfl
  | cons y ys ih =>
      unfold insDesc
      split
      · exact ((ih.cons y).trans (List.Perm.swap x y ys))
      · rfl

lemma sortDescStable_perm {α : Type*} (key : α → Nat) (l : List α) :
    List.Perm (sortDescStable key l) l := by
  induction l with
  | nil => rfl
  | cons x xs ih =>
      exact (insDesc_perm key x (sortDescStable key xs)).trans (ih.cons x)

lemma insDesc_pairwise {α : Type*} (key : α → Nat) (x : α) (l : List α)
    (h : l.Pairwise (fun a b => key b ≤ key a)) :
    (insDesc key x l).Pairwise (fun a b => key b ≤ key a) := by
  induction l with
  | nil => unfold insDesc; simp
  | cons y ys ih =>
      rw [List.pairwise_cons] at h
      unfold insDesc
      split
      · rename_i hxy
        rw [List.pairwise_cons]
        refine ⟨?_, ih h.2⟩
        intro b hb
        have hb' := (insDesc_perm key x ys).mem_iff.mp hb
        rcases List.mem_cons.mp hb' with hbx | hby
        · exact hbx ▸ Nat.le_of_lt hxy
        · exact h.1 b hby
      · rename_i hxy
        push_neg at hxy
        rw [List.pairwise_cons]
        refine ⟨?_, List.pairwise_cons.mpr h⟩
        intro b hb
        rcases List.mem_cons.mp hb with hby | hbys
        · exact hby ▸ hxy
        · exact le_trans (h.1 b hbys) hxy

lemma sortDescStable_pairwise {α : Type*} (key : α → Nat) (l : List α) :
    (sortDescStable key l).Pairwise (fun a b => key b ≤ key a) := by
  induction l with
  | nil => exact List.Pairwise.nil
  | cons x xs ih => exact insDesc_pairwise key x _ ih

/-- Stability of the insertion: elements of any fixed key value keep
their original relative order (the inserted element passes only elements
of strictly larger key). -/
lemma insDesc_filter_key {α : Type*} (key : α → Nat) (k : Nat) (x : α) (l : List α) :
    (insDesc key x l).filter (fun a => key a == k) =
      (x :: l).filter (fun a => key a == k) := by
  induction l with
  | nil => rfl
  | cons y ys ih =>
      unfold insDesc
      split
      · rename_i hxy
        by_cases hx : key x = k
        · have hy : (key y == k) = false := by
            simp only [beq_eq_false_iff_ne, ne_eq]
            omega
          have hx' : (key x == k) = true := by simpa using hx
          simp [List.filter_cons, ih, hx', hy]
        · have hx' : (key x == k) = false := by simpa using hx
          simp [List.filter_cons, ih, hx']
      · rfl

lemma sortDescStable_filter_key {α : Type*} (key : α → Nat) (k : Nat) (l : List α) :
    (sortDescStable key l).filter (fun a => key a == k) =
      l.filter (fun a => key a == k) := by
  induction l with
  | nil => rfl
  | cons x xs ih =>
      have h1 := insDesc_filter_key key k x (sortDescStable key xs)
      unfold sortDescStable
      rw [h1]
      simp only [List.filter_cons, ih]

/-- C7: the size reducer keeps every entity when `count ≤ max_nodes`;
otherwise it keeps exactly `max_nodes` entities drawn from the entity
list, every kept entity's degree dominating every dropped entity's
degree, with ties broken by the original enumeration order (the sort is
stable: entities of equal degree appear in their original order), where
an entity's degree — for the nonempty entity names the store returns —
is its number of occurrences as source or target over the full edge
set. -/
theorem size_reducer_top_degree (allEntities : List String)
    (edgesData : List LREdge) (maxNodes : Nat) :
    (allEntities.length ≤ maxNodes →
      selectedEntities allEntities edgesData maxNodes = allEntities) ∧
      (maxNodes < allEntities.length →
        (selectedEntities allEntities edgesData maxNodes).length = maxNodes ∧
        (∀ x ∈ selectedEntities allEntities edgesData maxNodes,
          x ∈ allEntities) ∧
        (∀ x ∈ selectedEntities allEntities edgesData maxNodes,
          ∀ y ∈ allEntities,
            y ∉ selectedEntities allEntities edgesData maxNodes →
            lrDegree edgesData y ≤ lrDegree edgesData x)) ∧
      (∀ k, (sortDescStable (lrDegree edgesData) allEntities).filter
          (fun a => lrDegree edgesData a == k) =
        allEntities.filter (fun a => lrDegree edgesData a == k)) ∧
      (∀ x, x ≠ "" → lrDegree edgesData x =
        edgesData.countP (fun d => d.source == some x) +
          edgesData.countP (fun d => d.target == some x)) := by
  refine ⟨?_, ?_, ?_, ?_⟩
  · intro h
    unfold selectedEntities
    rw [if_neg (by omega)]
  · intro h
    have hsel : selectedEntities allEntities edgesData maxNodes =
        (sortDescStable (lrDegree edgesData) allEntities).take maxNodes := by
      unfold selectedEntities
      rw [if_pos h]
    have hlen : (sortDescStable (lrDegree edgesData) allEntities).length =
        allEntities.length :=
      (sortDescStable_perm _ _).length_eq
    refine ⟨?_, ?_, ?_⟩
    · rw [hsel, List.length_take, hlen]
      omega
    · intro x hx
      rw [hsel] at hx
      exact (sortDescStable_perm _ _).mem_iff.mp
        ((List.take_sublist _ _).subset hx)
    · intro x hx y hy hyn
      rw [hsel] at hx hyn
      have hysort : y ∈ sortDescStable (lrDegree edgesData) allEntities :=
        (sortDescStable_perm _ _).mem_iff.mpr hy
      have hydrop : y ∈
          (sortDescStable (lrDegree edgesData) allEntities).drop maxNodes := by
        have hysplit : y ∈
            (sortDescStable (lrDegree edgesData) allEntities).take maxNodes ++
              (sortDescStable (lrDegree edgesData) allEntities).drop
                maxNodes := by
          rw [List.take_append_drop]
          exact hysort
        rcases List.mem_append.mp hysplit with h' | h'
        · exact absurd h' hyn
        · exact h'
      have hpw := sortDescStable_pairwise (lrDegree edgesData) allEntities
      rw [← List.take_append_drop maxNodes
        (sortDescStable (lrDegree edgesData) allEntities),
        List.pairwise_append] at hpw
      exact hpw.2.2 x hx y hydrop
  · intro k
    exact sortDescStable_filter_key _ k _
  · intro x hx
    unfold lrDegree
    congr 1
    · apply List.countP_congr
      intro d _
      cases hs : d.source with
      | none => simp [truthyOptStr]
      | some s =>
          simp only [truthyOptStr, Option.some.injEq, beq_iff_eq]
          by_cases hsx : s = x
          · subst hsx
            simp [hx]
          · simp [hsx]
    · apply List.countP_congr
      intro d _
      cases hs : d.target with
      | none => simp [truthyOptStr]
      | some s =>
          simp only [truthyOptStr, Option.some.injEq, beq_iff_eq]
          by_cases hsx : s = x
          · subst hsx
            simp [hx]
          · simp [hsx]

/-- The edge set of the C7 witness, giving degrees A:5, B:3, C:1 (three
A→B edges, one A→C edge, one edge with source A and a missing target). -/
def c7Edges : List LREdge :=
  [⟨some "A", some "B"⟩, ⟨some "A", some "B"⟩, ⟨some "A", some "B"⟩,
   ⟨some "A", some "C"⟩, ⟨some "A", none⟩]

/-- C7 witness: with degrees `{A:5, B:3, C:1}` and `max_nodes = 2` the
selected set is exactly `{A, B}`; with `max_nodes = 3` all three are
kept. -/
theorem size_reducer_top_degree_witness :
    lrDegree c7Edges "A" = 5 ∧ lrDegree c7Edges "B" = 3 ∧
      lrDegree c7Edges "C" = 1 ∧
      selectedEntities ["A", "B", "C"] c7Edges 2 = ["A", "B"] ∧
      (selectedEntities ["A", "B", "C"] c7Edges 2).length = 2 ∧
      (∀ x ∈ selectedEntities ["A", "B", "C"] c7Edges 2,
        ∀ y ∈ ["A", "B", "C"],
          y ∉ selectedEntities ["A", "B", "C"] c7Edges 2 →
          lrDegree c7Edges y ≤ lrDegree c7Edges x) ∧
      selectedEntities ["A", "B", "C"] c7Edges 3 = ["A", "B", "C"] := by
  have h2 := size_reducer_top_degree ["A", "B", "C"] c7Edges 2
  have h3 := size_reducer_top_degree ["A", "B", "C"] c7Edges 3
  have hlt : 2 < (["A", "B", "C"] : List String).length := by decide
  exact ⟨rfl, rfl, rfl, rfl, (h2.2.1 hlt).1,
    (h2.2.1 hlt).2.2, h3.1 (by decide)⟩

end RagBot
